import Mathlib

/-! Shallow embedding of the Bland web voice client
(`src/client/BlandClient.ts`, together with the audio-worklet processor
bundled in `test/dist/index.e93c85ca.js`).

Host floats are modelled as rationals (every IEEE float value the code can
see is a rational, so universal statements over `ℚ` cover them).  JS
`DataView.setInt16` follows the ECMAScript `ToInt16` conversion: truncate
the numeric value toward zero, wrap modulo 2^16, reinterpret as a signed
16-bit integer; bytes are stored little-endian. -/

namespace BlandClient

/-- ECMAScript truncation toward zero of a finite numeric value
(`ToIntegerOrInfinity`), as used by `DataView.setInt16`. -/
def jsTrunc (q : ℚ) : ℤ := if 0 ≤ q then ⌊q⌋ else ⌈q⌉

/-- The two bytes `view.setInt16(off, v, true)` stores for a (possibly
out-of-range) numeric value `v`: truncate toward zero, wrap modulo 2^16,
write little-endian. -/
def setInt16LE (v : ℚ) : List ℕ :=
  [((jsTrunc v) % 65536).toNat % 256, ((jsTrunc v) % 65536).toNat / 256]

/-- `sourceDataView.getInt16(off, true)` over two bytes: little-endian,
two's-complement signed 16-bit read. -/
def getInt16LE (b0 b1 : ℕ) : ℤ :=
  if b0 % 256 + 256 * (b1 % 256) < 32768 then (b0 % 256 + 256 * (b1 % 256) : ℕ)
  else (b0 % 256 + 256 * (b1 % 256) : ℕ) - 65536

/-- `convertFloat32ToUint8` (BlandClient.ts lines 37-47): writes
`view.setInt16(i * 2, array[i] * 32768, true)` for each sample, in order.
No clamping of the sample happens before scaling. -/
def convertFloat32ToUint8 : List ℚ → List ℕ
  | [] => []
  | s :: rest => setInt16LE (s * 32768) ++ convertFloat32ToUint8 rest

/-- `convertUint8ToFloat32` (BlandClient.ts lines 24-35): reads
`⌊byteLength / 2⌋` 16-bit little-endian integers at offsets 0, 2, 4, … and
divides each by `Math.pow(2, 16 - 1) = 32768`; a trailing odd byte is
dropped.  The loop reading consecutive even offsets is rendered as
structural recursion over byte pairs. -/
def convertUint8ToFloat32 : List ℕ → List ℚ
  | b0 :: b1 :: rest => (getInt16LE b0 b1 : ℚ) / 32768 :: convertUint8ToFloat32 rest
  | _ => []

/-- The per-sample effect of one encode-then-decode pass: scale by 32768,
truncate toward zero, wrap into signed 16 bits through the byte pair,
divide by 32768. -/
def quantize (s : ℚ) : ℚ :=
  (getInt16LE (((jsTrunc (s * 32768)) % 65536).toNat % 256)
              (((jsTrunc (s * 32768)) % 65536).toNat / 256) : ℚ) / 32768

/-! Transport session (`AudioWsClient`): connection endpoint, inbound
message dispatch, and the keepalive ping sender. -/

/-- Config passed to `AudioWsClient` (interface `AudioWsConfig`,
BlandClient.ts lines 8-14). -/
structure AudioWsConfig where
  callId : String
  customEndpoint : Option String
  agentId : Option String
  sessionToken : Option String
deriving DecidableEq

/-- JS template-string interpolation of a nullable string value. -/
def jsInterp : Option String → String
  | some s => s
  | none => "null"

/-- The module constant `baseEndpoint` (BlandClient.ts line 6). -/
def baseEndpoint : String := "ws://localhost:3000"

/-- The URI the `AudioWsClient` constructor connects to (line 62):
`baseEndpoint + "?agent=" + agentId + "&token=" + sessionToken`.
`audioWsConfig.customEndpoint` is never read by the constructor. -/
def connectEndpoint (cfg : AudioWsConfig) : String :=
  baseEndpoint ++ "?agent=" ++ jsInterp cfg.agentId ++ "&token=" ++ jsInterp cfg.sessionToken

/-- Payload carried on the transport's `"audio"` event: the byte view of a
binary frame, or a raw text frame. -/
inductive AudioPayload
  | bytes (data : List ℕ)
  | str (data : String)
deriving DecidableEq

/-- Effects of the `AudioWsClient` message handler: the internal
pong-timeout reset, an `"audio"` emission, or a `"clear"` emission
(`.emitClear` stands for `this.emit("clear")`, the event that
`BlandWebClient.handleAudioEvents` subscribes to). -/
inductive WsEffect
  | resetPingTimeoutCall
  | emitAudio (p : AudioPayload)
  | emitClear
deriving DecidableEq

/-- An inbound websocket message: `event.data` is a string or an
ArrayBuffer (`binaryType = "arraybuffer"`). -/
inductive WsData
  | text (s : String)
  | binary (bytes : List ℕ)

/-- `ws.onmessage` (BlandClient.ts lines 72-82): the text `"pong"` resets
the ping timeout; an ArrayBuffer is emitted as `"audio"` bytes; any other
string is emitted as `"audio"` with the string itself as payload. -/
def wsOnmessage : WsData → List WsEffect
  | .text s => if s = "pong" then [.resetPingTimeoutCall] else [.emitAudio (.str s)]
  | .binary bs => [.emitAudio (.bytes bs)]

/-- Controller-side effect of the transport's `"audio"` event. -/
inductive CtrlEffect
  | playAudioCall (p : AudioPayload)
deriving DecidableEq

/-- The `"audio"` listener installed by `handleAudioEvents`
(lines 372-374): every audio payload is forwarded to `playAudio`. -/
def onAudioListener (p : AudioPayload) : CtrlEffect := .playAudioCall p

/-- Browser `WebSocket#send` takes a single data argument; any extra
argument is ignored.  Returns the text actually transmitted. -/
def wsSendText (data : String) (extraIgnored : Option String) : String := data

/-- `sendPing` (BlandClient.ts lines 98-102): when `readyState` equals
`WebSocket.OPEN` (numeric value 1) it runs `this.ws.send("message", "ping")`,
which transmits its first argument; otherwise nothing is sent.  Returns
the list of text frames put on the wire. -/
def sendPing (readyState : ℕ) : List String :=
  if readyState = 1 then [wsSendText "message" (some "ping")] else []

/-! Jitter buffer and talking-state hysteresis, on the fallback
`ScriptProcessorNode` path: `playAudio` (push side), the `onaudioprocess`
playback drain (pull side), and the `"clear"` listener's fallback branch.
The worklet processor bundled in `test/dist/index.e93c85ca.js` implements
the same buffer mechanics.  An output sample is `some q` for a real write
and `none` for a JS `undefined` read (`audioData[0][idx]` out of bounds),
which the `Float32Array` output block stores as NaN. -/

/-- The buffer fields of `BlandWebClient`: `audioData` (chunk queue),
`audioDataIndex` (read cursor into the head chunk), `isTalking`. -/
structure JBuf where
  audioData : List (List ℚ)
  audioDataIndex : ℕ
  isTalking : Bool
deriving DecidableEq

/-- Talking-state transitions emitted by the controller. -/
inductive TalkEvent
  | agentStartTalking
  | agentStopTalking
deriving DecidableEq

/-- One iteration of the playback drain loop (lines 341-351): write
`audioData[0][audioDataIndex++]` (silence `0` when no chunks are queued),
then pop the head chunk and reset the cursor exactly when the incremented
cursor reaches the head chunk's length. -/
def drainStep (b : JBuf) : Option ℚ × JBuf :=
  match b.audioData with
  | [] => (some 0, b)
  | chunk :: rest =>
      if b.audioDataIndex + 1 = chunk.length then
        (chunk.get? b.audioDataIndex, { b with audioData := rest, audioDataIndex := 0 })
      else
        (chunk.get? b.audioDataIndex, { b with audioDataIndex := b.audioDataIndex + 1 })

/-- The playback drain filling `n` output samples in order. -/
def drain : JBuf → ℕ → List (Option ℚ) × JBuf
  | b, 0 => ([], b)
  | b, n + 1 =>
      let s := drainStep b
      let d := drain s.2 n
      (s.1 :: d.1, d.2)

/-- Tail of the `onaudioprocess` callback (lines 338-357): drain the
buffer into the output block, then flip `isTalking` off and emit
`agentStopTalking` when the buffer has drained to empty
(`!this.audioData.length && this.isTalking`). -/
def onaudioprocessPlayback (b : JBuf) (blockSize : ℕ) :
    List (Option ℚ) × JBuf × List TalkEvent :=
  let d := drain b blockSize
  if d.2.audioData.isEmpty && d.2.isTalking then
    (d.1, { d.2 with isTalking := false }, [.agentStopTalking])
  else (d.1, d.2, [])

/-- Buffer push plus start-talking hysteresis, the body of `playAudio`
(lines 424-435, fallback branch): append the chunk unconditionally, then
flip `isTalking` on and emit `agentStartTalking` if it was off. -/
def pushChunk (b : JBuf) (chunk : List ℚ) : JBuf × List TalkEvent :=
  let b1 : JBuf := { b with audioData := b.audioData ++ [chunk] }
  if b1.isTalking then (b1, [])
  else ({ b1 with isTalking := true }, [.agentStartTalking])

/-- `playAudio` (fallback branch): decode the received bytes with
`convertUint8ToFloat32`, then push. -/
def playAudio (b : JBuf) (audio : List ℕ) : JBuf × List TalkEvent :=
  pushChunk b (convertUint8ToFloat32 audio)

/-- The `"clear"` listener's fallback branch (lines 404-415): drop all
chunks, reset the cursor to 0, and if talking emit `agentStopTalking`. -/
def clearListener (b : JBuf) : JBuf × List TalkEvent :=
  if b.isTalking then
    ({ audioData := [], audioDataIndex := 0, isTalking := false }, [.agentStopTalking])
  else ({ audioData := [], audioDataIndex := 0, isTalking := b.isTalking }, [])

/-- Total number of samples queued in a chunk list. -/
def totalSamples (chunks : List (List ℚ)) : ℕ := (chunks.map List.length).sum

/-! Session teardown (`BlandWebClient.stopConversation`, lines 211-234).
Every member access on a possibly-null reference in that method is guarded
in the source (optional chaining `?.` or an explicit null check), rendered
here as matches on `Option`, so the function is total: no path can raise.
Release actions are recorded in source order. -/

/-- The `BlandWebClient` fields touched by teardown.  `stream` carries its
number of media tracks. -/
structure SessionState where
  isCalling : Bool
  liveClient : Option Unit
  audioContext : Option Unit
  audioNode : Option Unit
  captureNode : Option Unit
  stream : Option ℕ
  audioData : List (List ℚ)
  audioDataIndex : ℕ
deriving DecidableEq

/-- Resource-release actions `stopConversation` can perform. -/
inductive TeardownAct
  | closeTransport
  | suspendCtx
  | closeCtx
  | disconnectWorkletNode
  | disconnectCaptureNode
  | stopTrack
deriving DecidableEq

/-- `stopConversation` (lines 211-234).  `workletSupported` is the value
of `isAudioWorkletSupported()`, fixed per host. -/
def stopConversation (workletSupported : Bool) (s : SessionState) :
    SessionState × List TeardownAct :=
  let s0 : SessionState := { s with isCalling := false }
  let a1 : List TeardownAct := match s0.liveClient with
    | some _ => [.closeTransport]
    | none => []
  let a2 : List TeardownAct := match s0.audioContext with
    | some _ => [.suspendCtx, .closeCtx]
    | none => []
  let branch : SessionState × List TeardownAct :=
    if workletSupported then
      match s0.audioNode with
      | some _ => ({ s0 with audioNode := none }, [.disconnectWorkletNode])
      | none => ({ s0 with audioNode := none }, [])
    else
      match s0.captureNode with
      | some _ => ({ s0 with captureNode := none, audioData := [], audioDataIndex := 0 },
          [.disconnectCaptureNode])
      | none => (s0, [])
  let a3 : List TeardownAct := match branch.1.stream with
    | some k => List.replicate k .stopTrack
    | none => []
  ({ branch.1 with liveClient := none, audioContext := none, stream := none },
    a1 ++ a2 ++ branch.2 ++ a3)

/-! Transport ownership across `initConversation` (lines 185-209) and
`setupAudioPlayback` (lines 236-264): both construct an `AudioWsClient`
assigned to `this.liveClient` and both call `handleAudioEvents`.  Client
instances are numbered in construction order; a client stays open from
construction until `close()` is called on it. -/

/-- Ownership bookkeeping for `AudioWsClient` instances. -/
structure Ctrl where
  nextClientId : ℕ
  openClients : List ℕ
  liveClient : Option ℕ
  handlersWired : List ℕ
deriving DecidableEq

/-- `this.liveClient = new AudioWsClient({...})`: constructs (and starts
connecting) a new transport, overwriting the `liveClient` reference. -/
def newAudioWsClient (c : Ctrl) : Ctrl :=
  { c with nextClientId := c.nextClientId + 1,
           openClients := c.openClients ++ [c.nextClientId],
           liveClient := some c.nextClientId }

/-- `this.handleAudioEvents()`: wires listeners onto the current client. -/
def wireHandlers (c : Ctrl) : Ctrl :=
  { c with handlersWired := c.handlersWired ++ c.liveClient.toList }

/-- Success path of `setupAudioPlayback` (lines 254-261): constructs a
client and wires handlers. -/
def setupAudioPlayback (c : Ctrl) : Ctrl := wireHandlers (newAudioWsClient c)

/-- Success path of `initConversation` (lines 185-209): awaits
`setupAudioPlayback`, then constructs a second client and wires handlers
again. -/
def initConversation (c : Ctrl) : Ctrl :=
  wireHandlers (newAudioWsClient (setupAudioPlayback c))

/-- The transport part of `stopConversation`: `this.liveClient?.close()`
followed by `this.liveClient = null` — only the currently referenced
client is closed. -/
def stopConversationTransport (c : Ctrl) : Ctrl :=
  { c with openClients := c.openClients.filter (fun i => !(c.liveClient == some i)),
           liveClient := none }

/-! Keepalive monitor (`startPingPong`, `resetPingTimeout`,
`adjustPingFrequency`, BlandClient.ts lines 93-127), embedded as a
discrete-event machine over the JS timer table.  `setTimeout` and
`setInterval` allocate numbered timers; `clearTimeout`/`clearInterval`
remove by handle, and clearing an already-fired timeout's handle is a
no-op.  Timers with equal due times fire in creation order, as in the JS
event loop. -/

/-- The three timer callbacks the keepalive code installs. -/
inductive TimerKind
  | pingTick
  | pongDeadline
  | disconnectDeadline
deriving DecidableEq

/-- A scheduled JS timer; `period` is `some p` for `setInterval` timers. -/
structure Timer where
  id : ℕ
  due : ℕ
  kind : TimerKind
  period : Option ℕ
deriving DecidableEq

/-- `AudioWsClient`'s keepalive state plus the host timer table.  `pings`
records the times at which the interval invoked `sendPing`;
`disconnectEmits` counts `this.emit("disconnect")`. -/
structure KA where
  now : ℕ
  nextId : ℕ
  timers : List Timer
  pingTimeout : Option ℕ
  pingInterval : Option ℕ
  pingIntervalTime : ℕ
  wasDisconnected : Bool
  disconnectEmits : ℕ
  pings : List ℕ
deriving DecidableEq

/-- `clearTimeout` / `clearInterval` on a stored handle. -/
def clearTimer (s : KA) (h : ℕ) : KA :=
  { s with timers := s.timers.filter (fun t => t.id != h) }

/-- `setTimeout(cb, delay)`: allocate a one-shot timer, return handle. -/
def setTimeoutK (s : KA) (k : TimerKind) (delay : ℕ) : KA × ℕ :=
  ({ s with timers := s.timers ++ [⟨s.nextId, s.now + delay, k, none⟩],
            nextId := s.nextId + 1 }, s.nextId)

/-- `setInterval(() => this.sendPing(), delay)`: allocate a repeating
timer, return handle. -/
def setIntervalK (s : KA) (delay : ℕ) : KA × ℕ :=
  ({ s with timers := s.timers ++ [⟨s.nextId, s.now + delay, .pingTick, some delay⟩],
            nextId := s.nextId + 1 }, s.nextId)

/-- `resetPingTimeout` (lines 104-117): clear the stored timeout handle if
any, then arm a fresh `pingIntervalTime` ms pong deadline. -/
def resetPingTimeout (s : KA) : KA :=
  let s1 := match s.pingTimeout with
    | some h => clearTimer s h
    | none => s
  let p := setTimeoutK s1 .pongDeadline s1.pingIntervalTime
  { p.1 with pingTimeout := some p.2 }

/-- `startPingPong` (lines 93-96): `setInterval` at `pingIntervalTime`,
then `resetPingTimeout()`. -/
def startPingPong (s : KA) : KA :=
  let p := setIntervalK s s.pingIntervalTime
  resetPingTimeout { p.1 with pingInterval := some p.2 }

/-- `adjustPingFrequency` (lines 119-127): when the interval changes,
clear the repeating ping and restart the ping-pong at the new cadence. -/
def adjustPingFrequency (s : KA) (newInterval : ℕ) : KA :=
  if s.pingIntervalTime ≠ newInterval then
    let s1 := match s.pingInterval with
      | some h => clearTimer s h
      | none => s
    startPingPong { s1 with pingIntervalTime := newInterval }
  else s

/-- Body of the pong-deadline timeout (lines 108-116): if the interval is
still 5000 ms, escalate to 1000 ms and arm the 3000 ms disconnect
deadline (overwriting `pingTimeout` with its handle). -/
def pongDeadlineBody (s : KA) : KA :=
  if s.pingIntervalTime = 5000 then
    let s1 := adjustPingFrequency s 1000
    let p := setTimeoutK s1 .disconnectDeadline 3000
    { p.1 with pingTimeout := some p.2 }
  else s

/-- Fire one scheduled timer: advance the clock to its due time, remove it
(or reschedule it, for an interval), then run its callback. -/
def fireTimer (s : KA) (t : Timer) : KA :=
  let s0 : KA := { s with now := t.due }
  match t.period with
  | some p =>
      let tm := s0.timers.map (fun u => if u.id = t.id then { u with due := t.due + p } else u)
      let s1 : KA := { s0 with timers := tm }
      { s1 with pings := s1.pings ++ [t.due] }
  | none =>
      let s1 : KA := { s0 with timers := s0.timers.filter (fun u => u.id != t.id) }
      match t.kind with
      | .pongDeadline => pongDeadlineBody s1
      | .disconnectDeadline =>
          { s1 with disconnectEmits := s1.disconnectEmits + 1, wasDisconnected := true }
      | .pingTick => s1

/-- The earliest-due scheduled timer, creation order breaking ties. -/
def nextTimer (s : KA) : Option Timer :=
  s.timers.foldl (fun acc t =>
    match acc with
    | none => some t
    | some u => if t.due < u.due ∨ (t.due = u.due ∧ t.id < u.id) then some t else some u) none

/-- Observable events: the next scheduled timer fires, or a server
`"pong"` text arrives at a given time (running `resetPingTimeout`). -/
inductive KEvent
  | tick
  | pong (time : ℕ)

/-- One event step of the keepalive machine. -/
def kstep (s : KA) : KEvent → KA
  | .tick =>
      match nextTimer s with
      | some t => fireTimer s t
      | none => s
  | .pong time => resetPingTimeout { s with now := time }

/-- Run a sequence of events. -/
def krun (s : KA) (evs : List KEvent) : KA := evs.foldl kstep s

/-- A session whose keepalive has just started: `startPingPong` at time 0
with the initial 5000 ms interval (the claim's premise of a running
keepalive). -/
def kinit : KA :=
  startPingPong
    { now := 0, nextId := 0, timers := [], pingTimeout := none, pingInterval := none,
      pingIntervalTime := 5000, wasDisconnected := false, disconnectEmits := 0, pings := [] }

/-- Whether a timer is the armed disconnect deadline. -/
def isDisc (t : Timer) : Bool :=
  match t.kind with
  | .disconnectDeadline => true
  | _ => false

/-- Number of armed disconnect deadlines. -/
def discCount (s : KA) : ℕ := s.timers.countP isDisc

/-- Keepalive invariant: the interval is 5000 or 1000; before escalation
no disconnect deadline is armed and none has fired; and in total at most
one disconnect can ever be emitted. -/
def KInv (s : KA) : Prop :=
  (s.pingIntervalTime = 5000 ∨ s.pingIntervalTime = 1000) ∧
  (s.pingIntervalTime = 5000 → discCount s = 0 ∧ s.disconnectEmits = 0) ∧
  discCount s + s.disconnectEmits ≤ 1

theorem roundtrip_structural (xs : List ℚ) :
    convertUint8ToFloat32 (convertFloat32ToUint8 xs) = xs.map quantize := by
  induction xs with
  | nil => rfl
  | cons s rest ih =>
      simp only [convertFloat32ToUint8, setInt16LE, List.cons_append, List.nil_append,
        convertUint8ToFloat32, List.map_cons, quantize]
      exact congrArg _ ih

theorem getInt16LE_wrap (v : ℤ) (h1 : -32768 ≤ v) (h2 : v < 32768) :
    getInt16LE ((v % 65536).toNat % 256) ((v % 65536).toNat / 256) = v := by
  unfold getInt16LE
  split_ifs <;> omega

theorem jsTrunc_bounds (q : ℚ) (h1 : -32768 ≤ q) (h2 : q < 32768) :
    -32768 ≤ jsTrunc q ∧ jsTrunc q < 32768 := by
  unfold jsTrunc
  split_ifs with h
  · refine ⟨Int.le_floor.mpr (by exact_mod_cast h1), Int.floor_lt.mpr (by exact_mod_cast h2)⟩
  · push_neg at h
    refine ⟨?_, ?_⟩
    · exact_mod_cast le_trans h1 (Int.le_ceil q)
    · have hc : ⌈q⌉ ≤ 0 := Int.ceil_le.mpr (by exact_mod_cast le_of_lt h)
      omega

theorem jsTrunc_err (q : ℚ) : |q - jsTrunc q| < 1 := by
  unfold jsTrunc
  split_ifs with h
  · have h1 : (⌊q⌋ : ℚ) ≤ q := Int.floor_le q
    have h2 : q < ⌊q⌋ + 1 := Int.lt_floor_add_one q
    rw [abs_of_nonneg (by linarith)]
    linarith
  · have h1 : q ≤ (⌈q⌉ : ℚ) := Int.le_ceil q
    have h2 : (⌈q⌉ : ℚ) < q + 1 := Int.ceil_lt_add_one q
    rw [abs_of_nonpos (by linarith)]
    linarith

theorem quantize_close (s : ℚ) (h1 : -1 ≤ s) (h2 : s < 1) :
    |s - quantize s| ≤ 1 / 32768 := by
  have hb1 : -32768 ≤ s * 32768 := by linarith
  have hb2 : s * 32768 < 32768 := by linarith
  obtain ⟨hv1, hv2⟩ := jsTrunc_bounds (s * 32768) hb1 hb2
  have hq : quantize s = (jsTrunc (s * 32768) : ℚ) / 32768 := by
    unfold quantize
    rw [getInt16LE_wrap _ hv1 hv2]
  rw [hq]
  obtain ⟨he1, he2⟩ := abs_lt.mp (jsTrunc_err (s * 32768))
  rw [abs_le]
  constructor <;> [linarith; linarith]

theorem quantize_one : quantize 1 = -1 := by
  have h1 : jsTrunc ((1 : ℚ) * 32768) = 32768 := by
    unfold jsTrunc
    rw [if_pos (by norm_num), show ((1 : ℚ) * 32768) = ((32768 : ℤ) : ℚ) by norm_num]
    exact Int.floor_intCast 32768
  unfold quantize
  rw [h1, show (((32768 : ℤ) % 65536).toNat % 256) = 0 by decide,
    show (((32768 : ℤ) % 65536).toNat / 256) = 128 by decide,
    show getInt16LE 0 128 = -32768 by decide]
  norm_num

/-- C1: as stated ("every sample in the closed interval [-1, 1]") the
round-trip bound fails: the sample `1` scales to `32768`, which
`setInt16` wraps to `-32768`, so the decoded sample is `-1` and the error
is `2`, far above one quantization step. -/
theorem C1_counterexample :
    (∀ s ∈ [(1 : ℚ)], -1 ≤ s ∧ s ≤ 1) ∧
    convertUint8ToFloat32 (convertFloat32ToUint8 [(1 : ℚ)]) = [(-1 : ℚ)] ∧
    ¬ (∀ i, i < ([(1 : ℚ)]).length →
        |([(1 : ℚ)]).getD i 0 -
          (convertUint8ToFloat32 (convertFloat32ToUint8 [(1 : ℚ)])).getD i 0| ≤ 1 / 32768) := by
  have hdec : convertUint8ToFloat32 (convertFloat32ToUint8 [(1 : ℚ)]) = [(-1 : ℚ)] := by
    rw [roundtrip_structural, List.map_singleton, quantize_one]
  refine ⟨?_, hdec, ?_⟩
  · intro s hs
    fin_cases hs <;> norm_num
  · intro hall
    have h0 := hall 0 (by norm_num)
    rw [hdec] at h0
    rw [show ([(1 : ℚ)]).getD 0 0 = 1 from rfl, show ([(-1 : ℚ)]).getD 0 0 = -1 from rfl,
      show (1 : ℚ) - (-1) = 2 by norm_num,
      abs_of_nonneg (by norm_num : (0 : ℚ) ≤ 2)] at h0
    linarith

/-- C1 (amended): for every sequence of samples in the half-open interval
[-1, 1), decoding the encoding yields a sequence of the same length whose
every sample differs from the original by at most 1/32768; encode writes
each sample times 32768 as a wrapped little-endian signed 16-bit integer
without pre-clamping, and decode divides each such integer by 2^15. -/
theorem C1_roundtrip (xs : List ℚ) (h : ∀ s ∈ xs, -1 ≤ s ∧ s < 1) :
    (convertUint8ToFloat32 (convertFloat32ToUint8 xs)).length = xs.length ∧
    ∀ i, i < xs.length →
      |xs.getD i 0 - (convertUint8ToFloat32 (convertFloat32ToUint8 xs)).getD i 0| ≤ 1 / 32768 := by
  rw [roundtrip_structural]
  refine ⟨List.length_map _ _, ?_⟩
  intro i hi
  have hx : (xs.map quantize).getD i 0 = quantize (xs.getD i 0) := by
    rw [List.getD_eq_getElem?_getD, List.getD_eq_getElem?_getD,
      List.getElem?_map, List.getElem?_eq_getElem hi]
    rfl
  rw [hx]
  obtain ⟨hl, hr⟩ := h (xs.getD i 0) (by
    rw [List.getD_eq_getElem?_getD, List.getElem?_eq_getElem hi]
    exact List.getElem_mem _)
  exact quantize_close _ hl hr

/-- C1 amended-claim witness at a concrete two-sample input. -/
theorem C1_roundtrip_witness :
    (∀ s ∈ [(1 : ℚ) / 2, -(1 : ℚ) / 2], -1 ≤ s ∧ s < 1) ∧
    ((convertUint8ToFloat32 (convertFloat32ToUint8 [(1 : ℚ) / 2, -(1 : ℚ) / 2])).length =
        ([(1 : ℚ) / 2, -(1 : ℚ) / 2]).length ∧
      ∀ i, i < ([(1 : ℚ) / 2, -(1 : ℚ) / 2]).length →
        |([(1 : ℚ) / 2, -(1 : ℚ) / 2]).getD i 0 -
          (convertUint8ToFloat32 (convertFloat32ToUint8 [(1 : ℚ) / 2, -(1 : ℚ) / 2])).getD i 0|
          ≤ 1 / 32768) :=
  ⟨by intro s hs; fin_cases hs <;> norm_num,
   C1_roundtrip [(1 : ℚ) / 2, -(1 : ℚ) / 2] (by intro s hs; fin_cases hs <;> norm_num)⟩

/-- C3: with the transport open, `sendPing` puts exactly one text frame on
the wire, and that frame is the literal `"message"` — not `"ping"`, which
appears only as an ignored second argument to `WebSocket#send`; with the
transport not open nothing is sent.  This refutes the stated wire text
(the keepalive probe never transmits the protocol's ping token). -/
theorem C3_sendPing_wire :
    sendPing 1 = ["message"] ∧ sendPing 1 ≠ ["ping"] ∧ ∀ rs, rs ≠ 1 → sendPing rs = [] := by
  refine ⟨rfl, by decide, ?_⟩
  intro rs h
  unfold sendPing
  rw [if_neg h]

/-- C3 witness: concrete open and non-open ready states. -/
theorem C3_sendPing_wire_witness : sendPing 1 = ["message"] ∧ sendPing 0 = [] :=
  ⟨C3_sendPing_wire.1, C3_sendPing_wire.2.2 0 (by decide)⟩

/-- C4 counterexample: a config carrying an endpoint override is still
connected to the default endpoint; the connection URI is not rooted at the
override. -/
theorem C4_counterexample :
    connectEndpoint ⟨"test", some "wss://custom.example", some "a", some "t"⟩
        = "ws://localhost:3000?agent=a&token=t" ∧
    connectEndpoint ⟨"test", some "wss://custom.example", some "a", some "t"⟩
        ≠ "wss://custom.example?agent=a&token=t" :=
  ⟨rfl, by decide⟩

/-- C4 (amended): every transport session connects to the preconfigured
default endpoint with `agent` and `token` query credentials; a supplied
endpoint override never affects the connection target. -/
theorem C4_endpoint (cfg : AudioWsConfig) :
    connectEndpoint cfg
      = baseEndpoint ++ "?agent=" ++ jsInterp cfg.agentId ++ "&token="
          ++ jsInterp cfg.sessionToken ∧
    ∀ e, connectEndpoint { cfg with customEndpoint := e } = connectEndpoint cfg :=
  ⟨rfl, fun _ => rfl⟩

/-- C8: the inbound text token `"clear"` is not signalled as a distinct
`Clear` event: the message handler has no `"clear"` branch, so the token
is emitted on the `"audio"` channel (and hence routed to `playAudio`),
while the `"clear"` listener registered in `handleAudioEvents` can never
fire.  The earlier revision kept in `test/ws.js` does emit `"clear"` here,
marking the missing branch as a slip in this revision. -/
theorem C8_clear_not_signalled :
    wsOnmessage (.text "clear") = [.emitAudio (.str "clear")] ∧
    WsEffect.emitClear ∉ wsOnmessage (.text "clear") ∧
    WsEffect.resetPingTimeoutCall ∉ wsOnmessage (.text "clear") := by
  refine ⟨by decide, by decide, by decide⟩

/-- C10: every inbound text frame other than `"pong"` is emitted on the
`"audio"` event — the same channel binary frames use — and the
controller's audio listener forwards every audio payload to `playAudio`;
the transport never emits `"clear"` on any input. -/
theorem C10_text_to_audio :
    (∀ s, s ≠ "pong" → wsOnmessage (.text s) = [.emitAudio (.str s)]) ∧
    (∀ bs, wsOnmessage (.binary bs) = [.emitAudio (.bytes bs)]) ∧
    (∀ p, onAudioListener p = .playAudioCall p) ∧
    (∀ d e, e ∈ wsOnmessage d → e ≠ .emitClear) := by
  refine ⟨?_, fun _ => rfl, fun _ => rfl, ?_⟩
  · intro s h
    simp only [wsOnmessage]
    rw [if_neg h]
  · intro d e he
    cases d with
    | text s =>
        simp only [wsOnmessage] at he
        split_ifs at he with h
        · rw [List.mem_singleton] at he
          subst he
          simp
        · rw [List.mem_singleton] at he
          subst he
          simp
    | binary bs =>
        simp only [wsOnmessage] at he
        rw [List.mem_singleton] at he
        subst he
        simp

/-- C10 witness: the text `"clear"` (not `"pong"`) goes out as audio. -/
theorem C10_text_to_audio_witness :
    wsOnmessage (.text "clear") = [.emitAudio (.str "clear")] :=
  C10_text_to_audio.1 "clear" (by decide)

theorem drain_add (m : ℕ) : ∀ (b : JBuf) (n : ℕ),
    drain b (m + n) = ((drain b m).1 ++ (drain (drain b m).2 n).1,
      (drain (drain b m).2 n).2) := by
  induction m with
  | zero =>
      intro b n
      simp [drain, Nat.zero_add]
  | succ k ih =>
      intro b n
      have hshift : k + 1 + n = (k + n) + 1 := by omega
      rw [hshift]
      simp only [drain]
      rw [ih (drainStep b).2 n]
      rfl

theorem drain_nil (i : ℕ) (t : Bool) (n : ℕ) :
    drain ⟨[], i, t⟩ n = (List.replicate n (some 0), ⟨[], i, t⟩) := by
  induction n with
  | zero => rfl
  | succ k ih =>
      simp only [drain, drainStep, ih]
      rfl

theorem drain_chunk_from : ∀ (d : List ℚ) (c : List ℚ) (k : ℕ) (rest : List (List ℚ)) (t : Bool),
    c.drop k = d → k < c.length →
    drain ⟨c :: rest, k, t⟩ d.length = (d.map some, ⟨rest, 0, t⟩) := by
  intro d
  induction d with
  | nil =>
      intro c k rest t hdrop hk
      have := List.drop_eq_nil_iff.mp hdrop
      omega
  | cons x xs ih =>
      intro c k rest t hdrop hk
      have hget : c.get? k = some x := by
        rw [List.get?_eq_getElem?]
        have h0 : (c.drop k)[0]? = some x := by rw [hdrop]; simp
        rwa [List.getElem?_drop, Nat.add_zero] at h0
      have hxs : c.drop (k + 1) = xs := by
        have : List.drop 1 (c.drop k) = c.drop (k + 1) := by
          rw [List.drop_drop, Nat.add_comm]
        rw [← this, hdrop]
        rfl
      simp only [List.length_cons, drain, drainStep]
      by_cases hlast : k + 1 = c.length
      · have hxsnil : xs = [] := by
          rw [← hxs, hlast, List.drop_length]
        subst hxsnil
        simp only [if_pos hlast, hget, drain]
        rfl
      · have hklt : k + 1 < c.length := by omega
        rw [if_neg hlast]
        simp only [hget]
        have := ih c (k + 1) rest t hxs hklt
        simp only [this]
        rfl

theorem drain_whole_chunk (c : List ℚ) (h : c ≠ []) (rest : List (List ℚ)) (t : Bool) :
    drain ⟨c :: rest, 0, t⟩ c.length = (c.map some, ⟨rest, 0, t⟩) :=
  drain_chunk_from c c 0 rest t (List.drop_zero c) (List.length_pos.mpr h)

theorem drain_all_chunks : ∀ (chunks : List (List ℚ)) (t : Bool),
    (∀ c ∈ chunks, c ≠ []) →
    drain ⟨chunks, 0, t⟩ (totalSamples chunks) = ((chunks.flatten).map some, ⟨[], 0, t⟩) := by
  intro chunks
  induction chunks with
  | nil => intro t _; rfl
  | cons c cs ih =>
      intro t hne
      have htot : totalSamples (c :: cs) = c.length + totalSamples cs := by
        simp [totalSamples]
      rw [htot, drain_add c.length ⟨c :: cs, 0, t⟩ (totalSamples cs),
        drain_whole_chunk c (hne c (List.mem_cons_self c cs)) cs t]
      rw [ih t (fun d hd => hne d (List.mem_cons_of_mem c hd))]
      simp [List.flatten, List.map_append]

/-- C6 counterexample: with `A = []` and `B = [1]` (an empty chunk can be
pushed: `playAudio` pushes unconditionally, and a one-byte frame decodes
to the empty chunk), pulling `len(A) + len(B) = 1` sample from the buffer
reads `audioData[0][0]` of the empty head chunk — a JS `undefined`, stored
as NaN — instead of the sample of `B`, and the empty head chunk is never
popped.  So the pulled block is not `A ++ B`. -/
theorem C6_counterexample :
    (drain (pushChunk (pushChunk ⟨[], 0, false⟩ ([] : List ℚ)).1 [(1 : ℚ)]).1
        ((([] : List ℚ)).length + ([(1 : ℚ)]).length)).1
      ≠ (([] : List ℚ) ++ [(1 : ℚ)]).map some := by
  decide

/-- C6 (amended): for non-empty chunks `A` and `B`, pushing `[A, B]` into
an empty buffer and pulling `len(A) + len(B)` samples yields exactly
`A ++ B` (leaving the buffer empty); pulling any `m` samples beyond that
yields trailing silence `0`; and `clear()` discards all pending chunks and
resets the read cursor to 0. -/
theorem C6_fifo (A B : List ℚ) (hA : A ≠ []) (hB : B ≠ []) (m : ℕ) :
    (drain ⟨[A, B], 0, true⟩ (A.length + B.length)).1 = (A ++ B).map some ∧
    (drain ⟨[A, B], 0, true⟩ (A.length + B.length)).2.audioData = [] ∧
    (drain ⟨[A, B], 0, true⟩ (A.length + B.length + m)).1
      = (A ++ B).map some ++ List.replicate m (some 0) ∧
    (pushChunk (pushChunk ⟨[], 0, false⟩ A).1 B).1 = ⟨[A, B], 0, true⟩ ∧
    (clearListener ⟨[A, B], 0, true⟩).1.audioData = [] ∧
    (clearListener ⟨[A, B], 0, true⟩).1.audioDataIndex = 0 := by
  have hall : ∀ c ∈ [A, B], c ≠ [] := by
    intro c hc
    rcases List.mem_cons.mp hc with rfl | hc
    · exact hA
    rcases List.mem_cons.mp hc with rfl | hc
    · exact hB
    cases hc
  have htot : totalSamples [A, B] = A.length + B.length := by
    simp [totalSamples]
  have hmain := drain_all_chunks [A, B] true hall
  rw [htot] at hmain
  have hjoin : ([A, B]).flatten = A ++ B := by simp [List.flatten]
  refine ⟨?_, ?_, ?_, ?_, ?_, ?_⟩
  · rw [hmain, hjoin]
  · rw [hmain]
  · rw [drain_add (A.length + B.length) ⟨[A, B], 0, true⟩ m, hmain, hjoin,
      drain_nil 0 true m]
  · simp [pushChunk]
  · simp [clearListener]
  · simp [clearListener]

/-- C6 amended-claim witness at `A = [1]`, `B = [1/2]`, `m = 2`. -/
theorem C6_fifo_witness :
    (drain ⟨[[(1 : ℚ)], [(1 : ℚ) / 2]], 0, true⟩ (([(1 : ℚ)]).length + ([(1 : ℚ) / 2]).length)).1
        = ([(1 : ℚ)] ++ [(1 : ℚ) / 2]).map some ∧
    (drain ⟨[[(1 : ℚ)], [(1 : ℚ) / 2]], 0, true⟩ (([(1 : ℚ)]).length + ([(1 : ℚ) / 2]).length)).2.audioData = [] ∧
    (drain ⟨[[(1 : ℚ)], [(1 : ℚ) / 2]], 0, true⟩ (([(1 : ℚ)]).length + ([(1 : ℚ) / 2]).length + 2)).1
        = ([(1 : ℚ)] ++ [(1 : ℚ) / 2]).map some ++ List.replicate 2 (some 0) ∧
    (pushChunk (pushChunk ⟨[], 0, false⟩ [(1 : ℚ)]).1 [(1 : ℚ) / 2]).1
        = ⟨[[(1 : ℚ)], [(1 : ℚ) / 2]], 0, true⟩ ∧
    (clearListener ⟨[[(1 : ℚ)], [(1 : ℚ) / 2]], 0, true⟩).1.audioData = [] ∧
    (clearListener ⟨[[(1 : ℚ)], [(1 : ℚ) / 2]], 0, true⟩).1.audioDataIndex = 0 :=
  C6_fifo [(1 : ℚ)] [(1 : ℚ) / 2] (by decide) (by decide) 2

/-- C7: pushing one non-empty chunk into an empty, non-talking buffer
emits exactly one `agentStartTalking`; an `onaudioprocess` block that
drains the (well-formed, non-empty) buffer to empty while talking emits
exactly one `agentStopTalking` and clears `isTalking`; any push while
already talking emits no transition at all. -/
theorem C7_hysteresis :
    (∀ (b : JBuf) (chunk : List ℚ), b.audioData = [] → b.isTalking = false →
        (pushChunk b chunk).2 = [.agentStartTalking]) ∧
    (∀ (b : JBuf) (n : ℕ), b.isTalking = true → b.audioDataIndex = 0 →
        b.audioData ≠ [] → (∀ c ∈ b.audioData, c ≠ []) → totalSamples b.audioData ≤ n →
        (onaudioprocessPlayback b n).2.2 = [.agentStopTalking] ∧
        (onaudioprocessPlayback b n).2.1.isTalking = false) ∧
    (∀ (b : JBuf) (chunk : List ℚ), b.isTalking = true → (pushChunk b chunk).2 = []) := by
  refine ⟨?_, ?_, ?_⟩
  · intro b chunk _ htalk
    simp [pushChunk, htalk]
  · intro b n htalk hidx hne hall hlen
    obtain ⟨m, hm⟩ : ∃ m, n = totalSamples b.audioData + m := ⟨n - totalSamples b.audioData, by omega⟩
    obtain ⟨chunks, idx, tk⟩ := b
    simp only at htalk hidx hne hall hlen hm
    subst htalk hidx hm
    have hdrain :
        drain ⟨chunks, 0, true⟩ (totalSamples chunks + m)
          = ((chunks.flatten).map some ++ List.replicate m (some 0), ⟨[], 0, true⟩) := by
      rw [drain_add (totalSamples chunks) ⟨chunks, 0, true⟩ m,
        drain_all_chunks chunks true hall, drain_nil 0 true m]
    constructor
    · simp [onaudioprocessPlayback, hdrain]
    · simp [onaudioprocessPlayback, hdrain]
  · intro b chunk htalk
    simp [pushChunk, htalk]

/-- C7 witness: concrete one-chunk buffers for each of the three parts. -/
theorem C7_hysteresis_witness :
    (pushChunk ⟨[], 0, false⟩ [(1 : ℚ)]).2 = [.agentStartTalking] ∧
    ((onaudioprocessPlayback ⟨[[(1 : ℚ)]], 0, true⟩ 1).2.2 = [.agentStopTalking] ∧
      (onaudioprocessPlayback ⟨[[(1 : ℚ)]], 0, true⟩ 1).2.1.isTalking = false) ∧
    (pushChunk ⟨[], 0, true⟩ [(1 : ℚ)]).2 = [] :=
  ⟨C7_hysteresis.1 ⟨[], 0, false⟩ [(1 : ℚ)] rfl rfl,
   C7_hysteresis.2.1 ⟨[[(1 : ℚ)]], 0, true⟩ 1 rfl rfl (by decide)
     (by intro c hc; rw [List.mem_singleton] at hc; subst hc; decide) (by decide),
   C7_hysteresis.2.2 ⟨[], 0, true⟩ [(1 : ℚ)] rfl⟩

theorem countP_replicate_eq {α : Type} (p : α → Bool) (x : α) (k : ℕ) :
    (List.replicate k x).countP p = if p x then k else 0 := by
  induction k with
  | zero => simp
  | succ n ih =>
      rw [List.replicate_succ, List.countP_cons, ih]
      by_cases hp : p x <;> simp [hp]

/-- C9: `stopConversation` is total (every member access in it is guarded,
so no path throws), leaves the session terminal (`isCalling` false, all
owner references null), releases the transport, every stream track, and
the processing node of the active pipeline variant when they exist, and a
second call performs no release action and does not change the state. -/
theorem C9_stop_safe (w : Bool) (s : SessionState) :
    ((stopConversation w s).1.isCalling = false ∧
      (stopConversation w s).1.liveClient = none ∧
      (stopConversation w s).1.audioContext = none ∧
      (stopConversation w s).1.stream = none) ∧
    (s.liveClient.isSome → TeardownAct.closeTransport ∈ (stopConversation w s).2) ∧
    (∀ k, s.stream = some k →
      (stopConversation w s).2.countP (fun a => a = TeardownAct.stopTrack) = k) ∧
    (w = true → s.audioNode.isSome →
      TeardownAct.disconnectWorkletNode ∈ (stopConversation w s).2) ∧
    (w = false → s.captureNode.isSome →
      TeardownAct.disconnectCaptureNode ∈ (stopConversation w s).2) ∧
    ((stopConversation w (stopConversation w s).1).2 = [] ∧
      (stopConversation w (stopConversation w s).1).1 = (stopConversation w s).1) := by
  obtain ⟨ic, lc, ac, an, cn, st, ad, ai⟩ := s
  cases w <;> cases lc <;> cases ac <;> cases an <;> cases cn <;> cases st <;>
    simp [stopConversation, countP_replicate_eq, List.countP_append, List.countP_cons]

/-- C9 witness: a fully populated live session on the fallback path. -/
theorem C9_stop_safe_witness :
    ((stopConversation false ⟨true, some (), some (), none, some (), some 2, [[1]], 3⟩).1.isCalling = false ∧
      (stopConversation false ⟨true, some (), some (), none, some (), some 2, [[1]], 3⟩).1.liveClient = none ∧
      (stopConversation false ⟨true, some (), some (), none, some (), some 2, [[1]], 3⟩).1.audioContext = none ∧
      (stopConversation false ⟨true, some (), some (), none, some (), some 2, [[1]], 3⟩).1.stream = none) ∧
    TeardownAct.closeTransport
      ∈ (stopConversation false ⟨true, some (), some (), none, some (), some 2, [[1]], 3⟩).2 ∧
    (stopConversation false ⟨true, some (), some (), none, some (), some 2, [[1]], 3⟩).2.countP
      (fun a => a = TeardownAct.stopTrack) = 2 ∧
    TeardownAct.disconnectCaptureNode
      ∈ (stopConversation false ⟨true, some (), some (), none, some (), some 2, [[1]], 3⟩).2 ∧
    (stopConversation false
        (stopConversation false ⟨true, some (), some (), none, some (), some 2, [[1]], 3⟩).1).2 = [] := by
  have h := C9_stop_safe false ⟨true, some (), some (), none, some (), some 2, [[1]], 3⟩
  exact ⟨h.1, h.2.1 rfl, h.2.2.1 2 rfl, h.2.2.2.2.1 rfl rfl, h.2.2.2.2.2.1⟩

/-- C5: one successful `initConversation` constructs two transport
sessions — `setupAudioPlayback` builds and wires client 0, then
`initConversation` builds and wires client 1 while client 0 is still open,
overwriting `liveClient`; teardown closes only client 1, leaving client 0
open (leaked).  This refutes single ownership of the transport. -/
theorem C5_double_transport :
    (setupAudioPlayback ⟨0, [], none, []⟩).openClients = [0] ∧
    (initConversation ⟨0, [], none, []⟩).openClients = [0, 1] ∧
    (initConversation ⟨0, [], none, []⟩).liveClient = some 1 ∧
    (initConversation ⟨0, [], none, []⟩).handlersWired = [0, 1] ∧
    (stopConversationTransport (initConversation ⟨0, [], none, []⟩)).openClients = [0] ∧
    (stopConversationTransport (initConversation ⟨0, [], none, []⟩)).liveClient = none := by
  decide

theorem countP_filter_le {α : Type} (p q : α → Bool) (l : List α) :
    (l.filter q).countP p ≤ l.countP p := by
  induction l with
  | nil => simp
  | cons a l ih =>
      by_cases hq : q a
      · rw [List.filter_cons_of_pos hq, List.countP_cons, List.countP_cons]
        by_cases hp : p a <;> simp only [hp, if_true, if_false] <;> omega
      · rw [List.filter_cons_of_neg hq, List.countP_cons]
        by_cases hp : p a <;> simp only [hp, if_true, if_false] <;> omega

theorem countP_map_kind (l : List Timer) (f : Timer → Timer)
    (hf : ∀ u, isDisc (f u) = isDisc u) :
    (l.map f).countP isDisc = l.countP isDisc := by
  induction l with
  | nil => rfl
  | cons a l ih => rw [List.map_cons, List.countP_cons, List.countP_cons, hf, ih]

theorem countP_eq_one_unique {α : Type} (p : α → Bool) :
    ∀ (l : List α), l.countP p = 1 → ∀ t ∈ l, p t → ∀ u ∈ l, p u → u = t := by
  intro l
  induction l with
  | nil => intro _ t ht; cases ht
  | cons a l ih =>
      intro hcount t htmem htp u humem hup
      rw [List.countP_cons] at hcount
      by_cases hpa : p a
      · rw [if_pos hpa] at hcount
        have hl0 : l.countP p = 0 := by omega
        have hnone := List.countP_eq_zero.mp hl0
        rcases List.mem_cons.mp htmem with rfl | htl
        · rcases List.mem_cons.mp humem with rfl | hul
          · rfl
          · exact absurd hup (hnone u hul)
        · exact absurd htp (hnone t htl)
      · rw [if_neg hpa] at hcount
        rcases List.mem_cons.mp htmem with rfl | htl
        · exact absurd htp hpa
        rcases List.mem_cons.mp humem with rfl | hul
        · exact absurd hup hpa
        exact ih (by omega) t htl htp u hul hup

theorem discCount_remove_fired (l : List Timer) (t : Timer) (hmem : t ∈ l)
    (ht : isDisc t = true) (hcount : l.countP isDisc = 1) :
    (l.filter (fun u => u.id != t.id)).countP isDisc = 0 := by
  rw [List.countP_eq_zero]
  intro u hu hdisc
  obtain ⟨humem, hid⟩ := List.mem_filter.mp hu
  have hut : u = t := countP_eq_one_unique isDisc l hcount t hmem ht u humem hdisc
  subst hut
  simp at hid

theorem countP_append_one {α : Type} (p : α → Bool) (l : List α) (x : α) :
    (l ++ [x]).countP p = l.countP p + (if p x then 1 else 0) := by
  rw [List.countP_append, List.countP_cons, List.countP_nil, Nat.zero_add]

theorem resetPingTimeout_effects (s : KA) :
    (resetPingTimeout s).pingIntervalTime = s.pingIntervalTime ∧
    (resetPingTimeout s).disconnectEmits = s.disconnectEmits ∧
    discCount (resetPingTimeout s) ≤ discCount s := by
  obtain ⟨no, nid, tms, pt, pi, pit, wd, de, pg⟩ := s
  cases pt with
  | none =>
      refine ⟨rfl, rfl, ?_⟩
      simp [resetPingTimeout, setTimeoutK, discCount, List.countP_append,
        List.countP_cons, isDisc]
  | some h =>
      refine ⟨rfl, rfl, ?_⟩
      have hle := countP_filter_le isDisc (fun t => t.id != h) tms
      have heq : discCount (resetPingTimeout (⟨no, nid, tms, some h, pi, pit, wd, de, pg⟩ : KA))
          = (tms.filter (fun t => t.id != h)).countP isDisc := by
        show ((tms.filter (fun t => t.id != h))
            ++ [(⟨nid, no + pit, .pongDeadline, none⟩ : Timer)]).countP isDisc = _
        rw [countP_append_one]
        norm_num [isDisc]
      rw [heq]
      exact hle

theorem startPingPong_effects (s : KA) :
    (startPingPong s).pingIntervalTime = s.pingIntervalTime ∧
    (startPingPong s).disconnectEmits = s.disconnectEmits ∧
    discCount (startPingPong s) ≤ discCount s := by
  have h2 := resetPingTimeout_effects
    { (setIntervalK s s.pingIntervalTime).1 with pingInterval := some (setIntervalK s s.pingIntervalTime).2 }
  have hdc : discCount
      ({ (setIntervalK s s.pingIntervalTime).1 with pingInterval := some (setIntervalK s s.pingIntervalTime).2 } : KA)
      = discCount s := by
    simp [setIntervalK, discCount, List.countP_append, List.countP_cons, isDisc]
  exact ⟨h2.1, h2.2.1, le_trans h2.2.2 (le_of_eq hdc)⟩

theorem adjustPingFrequency_effects (s : KA) (n : ℕ) :
    (adjustPingFrequency s n).pingIntervalTime = n ∧
    (adjustPingFrequency s n).disconnectEmits = s.disconnectEmits ∧
    discCount (adjustPingFrequency s n) ≤ discCount s := by
  unfold adjustPingFrequency
  split_ifs with hne
  · cases hpi : s.pingInterval with
    | none =>
        have h2 := startPingPong_effects { s with pingIntervalTime := n }
        exact ⟨h2.1, h2.2.1, h2.2.2⟩
    | some h =>
        have h2 := startPingPong_effects { clearTimer s h with pingIntervalTime := n }
        have hdc : discCount ({ clearTimer s h with pingIntervalTime := n } : KA)
            ≤ discCount s := by
          have := countP_filter_le isDisc (fun t => t.id != h) s.timers
          simp only [clearTimer, discCount] at this ⊢
          exact this
        exact ⟨h2.1, h2.2.1, le_trans h2.2.2 hdc⟩
  · push_neg at hne
    exact ⟨hne, rfl, le_refl _⟩

theorem pongDeadlineBody_escalates (s : KA) (h5 : s.pingIntervalTime = 5000)
    (hc : discCount s = 0) (he : s.disconnectEmits = 0) :
    (pongDeadlineBody s).pingIntervalTime = 1000 ∧
    (pongDeadlineBody s).disconnectEmits = 0 ∧
    discCount (pongDeadlineBody s) ≤ 1 := by
  have ha := adjustPingFrequency_effects s 1000
  have hbody : pongDeadlineBody s
      = { (setTimeoutK (adjustPingFrequency s 1000) .disconnectDeadline 3000).1 with
          pingTimeout := some (setTimeoutK (adjustPingFrequency s 1000) .disconnectDeadline 3000).2 } := by
    unfold pongDeadlineBody
    rw [if_pos h5]
  have hdc : discCount (pongDeadlineBody s) = discCount (adjustPingFrequency s 1000) + 1 := by
    rw [hbody]
    simp [setTimeoutK, discCount, List.countP_append, List.countP_cons, isDisc]
  refine ⟨?_, ?_, ?_⟩
  · rw [hbody]
    exact ha.1
  · rw [hbody]
    exact ha.2.1.trans he
  · have := ha.2.2
    omega

theorem KInv_fireTimer (s : KA) (t : Timer) (hmem : t ∈ s.timers) (h : KInv s) :
    KInv (fireTimer s t) := by
  obtain ⟨hor, himp, hsum⟩ := h
  obtain ⟨tid, tdue, tkind, tper⟩ := t
  cases tper with
  | some p =>
      have hf : ∀ u, isDisc ((fun u => if u.id = tid then { u with due := tdue + p } else u) u)
          = isDisc u := by
        intro u
        show isDisc (if u.id = tid then { u with due := tdue + p } else u) = isDisc u
        by_cases hid : u.id = tid
        · rw [if_pos hid]
          rfl
        · rw [if_neg hid]
      have hdc : discCount (fireTimer s ⟨tid, tdue, tkind, some p⟩) = discCount s := by
        show (s.timers.map _).countP isDisc = s.timers.countP isDisc
        exact countP_map_kind s.timers _ hf
      have hde : (fireTimer s ⟨tid, tdue, tkind, some p⟩).disconnectEmits
          = s.disconnectEmits := rfl
      have hpit : (fireTimer s ⟨tid, tdue, tkind, some p⟩).pingIntervalTime
          = s.pingIntervalTime := rfl
      refine ⟨?_, ?_, ?_⟩
      · rw [hpit]; exact hor
      · intro hh
        rw [hpit] at hh
        obtain ⟨h1, h2⟩ := himp hh
        rw [hdc, hde]
        exact ⟨h1, h2⟩
      · rw [hdc, hde]; exact hsum
  | none =>
      cases tkind with
      | pingTick =>
          have hdc : discCount (fireTimer s ⟨tid, tdue, .pingTick, none⟩) ≤ discCount s := by
            show (s.timers.filter _).countP isDisc ≤ s.timers.countP isDisc
            exact countP_filter_le _ _ _
          have hde : (fireTimer s ⟨tid, tdue, .pingTick, none⟩).disconnectEmits
              = s.disconnectEmits := rfl
          have hpit : (fireTimer s ⟨tid, tdue, .pingTick, none⟩).pingIntervalTime
              = s.pingIntervalTime := rfl
          refine ⟨?_, ?_, ?_⟩
          · rw [hpit]; exact hor
          · intro hh
            rw [hpit] at hh
            obtain ⟨h1, h2⟩ := himp hh
            rw [hde]
            omega
          · rw [hde]; omega
      | pongDeadline =>
          have hstep : fireTimer s ⟨tid, tdue, .pongDeadline, none⟩
              = pongDeadlineBody
                  { s with now := tdue, timers := s.timers.filter (fun u => u.id != tid) } := rfl
          have hdc1 : discCount
              ({ s with now := tdue, timers := s.timers.filter (fun u => u.id != tid) } : KA)
              ≤ discCount s := countP_filter_le _ _ _
          by_cases h5 : s.pingIntervalTime = 5000
          · obtain ⟨hc, he⟩ := himp h5
            have hesc := pongDeadlineBody_escalates
              { s with now := tdue, timers := s.timers.filter (fun u => u.id != tid) }
              h5 (by omega) he
            rw [hstep]
            exact ⟨Or.inr hesc.1, fun hh => absurd (hesc.1.symm.trans hh) (by decide),
              by have := hesc.2.1; have := hesc.2.2; omega⟩
          · have h1000 : s.pingIntervalTime = 1000 := by
              rcases hor with h | h
              · exact absurd h h5
              · exact h
            have hbody : pongDeadlineBody
                { s with now := tdue, timers := s.timers.filter (fun u => u.id != tid) }
                = { s with now := tdue, timers := s.timers.filter (fun u => u.id != tid) } := by
              unfold pongDeadlineBody
              rw [if_neg]
              show ¬ s.pingIntervalTime = 5000
              exact h5
            rw [hstep, hbody]
            refine ⟨Or.inr h1000, fun hh => absurd hh h5, ?_⟩
            have hdd : discCount { s with now := tdue, timers := s.timers.filter (fun u => u.id != tid) } = (s.timers.filter (fun u => u.id != tid)).countP isDisc := rfl
            have hdd2 : (s.timers.filter (fun u => u.id != tid)).countP isDisc
                ≤ discCount s := hdc1
            have hde2 : ({ s with now := tdue, timers := s.timers.filter (fun u => u.id != tid) } : KA).disconnectEmits = s.disconnectEmits := rfl
            omega
      | disconnectDeadline =>
          have hpos : 0 < s.timers.countP isDisc :=
            List.countP_pos.mpr ⟨⟨tid, tdue, .disconnectDeadline, none⟩, hmem, rfl⟩
          have hone : s.timers.countP isDisc = 1 := by
            have : discCount s + s.disconnectEmits ≤ 1 := hsum
            simp only [discCount] at this
            omega
          have hzero : (s.timers.filter (fun u => u.id != tid)).countP isDisc = 0 :=
            discCount_remove_fired s.timers ⟨tid, tdue, .disconnectDeadline, none⟩ hmem rfl hone
          have he0 : s.disconnectEmits = 0 := by
            have : discCount s + s.disconnectEmits ≤ 1 := hsum
            simp only [discCount] at this
            omega
          have hdc : discCount (fireTimer s ⟨tid, tdue, .disconnectDeadline, none⟩) = 0 := hzero
          have hde : (fireTimer s ⟨tid, tdue, .disconnectDeadline, none⟩).disconnectEmits
              = s.disconnectEmits + 1 := rfl
          have hpit : (fireTimer s ⟨tid, tdue, .disconnectDeadline, none⟩).pingIntervalTime
              = s.pingIntervalTime := rfl
          refine ⟨?_, ?_, ?_⟩
          · rw [hpit]; exact hor
          · intro hh
            rw [hpit] at hh
            obtain ⟨h1, _⟩ := himp hh
            simp only [discCount] at h1
            omega
          · rw [hdc, hde]
            omega

theorem nextTimer_mem (s : KA) (t : Timer) (h : nextTimer s = some t) : t ∈ s.timers := by
  unfold nextTimer at h
  have main : ∀ (l : List Timer) (acc : Option Timer),
      l.foldl (fun acc t =>
        match acc with
        | none => some t
        | some u => if t.due < u.due ∨ (t.due = u.due ∧ t.id < u.id) then some t else some u) acc
        = some t →
      t ∈ l ∨ acc = some t := by
    intro l
    induction l with
    | nil => intro acc hacc; exact Or.inr hacc
    | cons a l ih =>
        intro acc hacc
        rw [List.foldl_cons] at hacc
        rcases ih _ hacc with hmem | hstep
        · exact Or.inl (List.mem_cons_of_mem a hmem)
        · cases acc with
          | none =>
              obtain rfl := Option.some.inj hstep
              exact Or.inl (List.mem_cons_self a l)
          | some u =>
              have hstep2 : (if a.due < u.due ∨ (a.due = u.due ∧ a.id < u.id)
                  then some a else some u) = some t := hstep
              by_cases hlt : a.due < u.due ∨ (a.due = u.due ∧ a.id < u.id)
              · rw [if_pos hlt] at hstep2
                obtain rfl := Option.some.inj hstep2
                exact Or.inl (List.mem_cons_self a l)
              · rw [if_neg hlt] at hstep2
                exact Or.inr hstep2
  rcases main s.timers none h with hmem | hbad
  · exact hmem
  · cases hbad

theorem KInv_kstep (s : KA) (e : KEvent) (h : KInv s) : KInv (kstep s e) := by
  cases e with
  | tick =>
      unfold kstep
      cases hnt : nextTimer s with
      | none => exact h
      | some t => exact KInv_fireTimer s t (nextTimer_mem s t hnt) h
  | pong time =>
      show KInv (resetPingTimeout { s with now := time })
      obtain ⟨hor, himp, hsum⟩ := h
      obtain ⟨hpit, hde, hdc⟩ := resetPingTimeout_effects { s with now := time }
      have hdc0 : discCount ({ s with now := time } : KA) = discCount s := rfl
      have hde0 : ({ s with now := time } : KA).disconnectEmits = s.disconnectEmits := rfl
      refine ⟨?_, ?_, ?_⟩
      · rw [hpit]; exact hor
      · intro hh
        rw [hpit] at hh
        obtain ⟨h1, h2⟩ := himp hh
        constructor
        · omega
        · rw [hde]; exact h2
      · rw [hde]
        omega

theorem KInv_krun : ∀ (evs : List KEvent) (s : KA), KInv s → KInv (krun s evs) := by
  intro evs
  induction evs with
  | nil => intro s h; exact h
  | cons e evs ih => intro s h; exact ih (kstep s e) (KInv_kstep s e h)

theorem kinit_KInv : KInv kinit := by
  refine ⟨Or.inl rfl, fun _ => ⟨by decide, rfl⟩, by decide⟩

/-- C2: with the keepalive running at 5000 ms and no pong arriving, the
first deadline fires at 5000 ms: the interval becomes 1000 ms, the
repeating ping restarts at the 1000 ms cadence, and a 3000 ms disconnect
deadline is armed; with still no pong, `disconnect` fires exactly once at
8000 ms (pings having gone out at 5000, 6000, 7000, 8000 ms), and over
every event sequence at most one disconnect is ever emitted; a pong
before the first deadline re-arms the pong deadline at the current 5000 ms
interval, and a pong inside the 3000 ms window cancels the disconnect
deadline and re-arms the pong deadline at the escalated 1000 ms
interval, so no disconnect fires. -/
theorem C2_keepalive_escalation :
    ((krun kinit [.tick, .tick]).pingIntervalTime = 1000 ∧
      (∃ t ∈ (krun kinit [.tick, .tick]).timers, t.kind = .pingTick ∧ t.period = some 1000) ∧
      (∃ t ∈ (krun kinit [.tick, .tick]).timers,
        t.kind = .disconnectDeadline ∧ t.due = (krun kinit [.tick, .tick]).now + 3000)) ∧
    ((krun kinit (List.replicate 7 .tick)).disconnectEmits = 1 ∧
      (krun kinit (List.replicate 7 .tick)).now = 8000 ∧
      (krun kinit (List.replicate 7 .tick)).pings = [5000, 6000, 7000, 8000] ∧
      (krun kinit (List.replicate 12 .tick)).disconnectEmits = 1) ∧
    (∀ evs, (krun kinit evs).disconnectEmits ≤ 1) ∧
    ((krun kinit [.pong 4000]).pingIntervalTime = 5000 ∧
      (krun kinit [.pong 4000]).disconnectEmits = 0 ∧
      (∃ t ∈ (krun kinit [.pong 4000]).timers, t.kind = .pongDeadline ∧ t.due = 9000)) ∧
    (discCount (krun kinit [.tick, .tick, .tick, .tick, .tick, .pong 7500]) = 0 ∧
      (∃ t ∈ (krun kinit [.tick, .tick, .tick, .tick, .tick, .pong 7500]).timers,
        t.kind = .pongDeadline ∧ t.due = 8500) ∧
      (krun kinit ([.tick, .tick, .tick, .tick, .tick, .pong 7500]
        ++ List.replicate 6 .tick)).disconnectEmits = 0) := by
  refine ⟨by decide, by decide, ?_, by decide, by decide⟩
  intro evs
  obtain ⟨_, _, hsum⟩ := KInv_krun evs kinit kinit_KInv
  omega

end BlandClient
